import Mathlib

/-!
Verification of the deferred "next tick" dispatcher of
`shell/common/api/electron_bindings.cc` and of two bindings of
`shell/common/api/atom_api_shell.cc`, against the repository's
specification.

The dispatcher (`ElectronBindings` in the C++ source) owns

* a `std::list<node::Environment*> pending_next_ticks_` — the ordered,
  de-duplicated collection of pending contexts; and
* a `uv_async_t call_next_tick_async_` wake primitive, signalled with
  `uv_async_send`.

We model a context (`node::Environment*`) by a natural-number identifier,
the pending list by a `List Nat` and the wake primitive by the number of
`uv_async_send` calls issued so far.
-/

namespace Electron

/-- A script execution context (`node::Environment*` in the source),
modelled by a numeric identity. The dispatcher only compares these for
equality; it never dereferences them. -/
abbrev Context := Nat

/-- State of the dispatcher `ElectronBindings`:
`pending_next_ticks` embeds the member `pending_next_ticks_`
(a `std::list<node::Environment*>`), and `async_send_count` counts the
`uv_async_send(&call_next_tick_async_)` calls issued so far. -/
structure ElectronBindings where
  pending_next_ticks : List Context
  async_send_count : Nat
  deriving Repr, DecidableEq

/-- `ElectronBindings::ActivateUVLoop` (electron_bindings.cc, lines
115-123): if the current environment is already in `pending_next_ticks_`
(`std::find` succeeds) it returns immediately; otherwise it appends the
environment (`push_back`) and signals the wake primitive
(`uv_async_send`). -/
def ActivateUVLoop (env : Context) (b : ElectronBindings) : ElectronBindings :=
  if env ∈ b.pending_next_ticks then b
  else
    { pending_next_ticks := b.pending_next_ticks ++ [env]
      async_send_count := b.async_send_count + 1 }

/-- `ElectronBindings::EnvironmentDestroyed` (electron_bindings.cc, lines
108-113): `std::find` the environment in `pending_next_ticks_` and, when
found, `erase` that (first) occurrence; otherwise do nothing.
`List.erase` has exactly this find-first-and-remove behaviour. -/
def EnvironmentDestroyed (env : Context) (b : ElectronBindings) : ElectronBindings :=
  { b with pending_next_ticks := b.pending_next_ticks.erase env }

/-- A sequence of reentrant `ActivateUVLoop` calls performed while a
context's callback scope runs (left to right). -/
def registerAll (envs : List Context) (b : ElectronBindings) : ElectronBindings :=
  envs.foldl (fun s e => ActivateUVLoop e s) b

/-- The iteration of `ElectronBindings::OnCallNextTick` (electron_bindings.cc,
lines 126-140): `for (it = begin; it != end; ++it)` over the
`std::list pending_next_ticks_`, entering each visited environment's scope
and running one empty-resource callback invocation.

The loop body itself never touches the list, but the callback scope runs
script which may reenter the dispatcher through `activateUvLoop`;
parameter `f` gives, for each visited context, the reentrant
`ActivateUVLoop` calls its callback issues. Since `ActivateUVLoop` only
ever appends (`push_back`), which for a `std::list` invalidates no
iterator and leaves `end()`-reachability intact, the C++ iterator position
is faithfully modelled by the index `i`, and elements appended during the
loop are reached by it. `fuel` bounds the number of iterations (the C++
loop can run unboundedly if callbacks keep appending fresh contexts);
when the list is exhausted first, the loop exits exactly as
`it == end()` does. Returns the final state and the ordered list of
visited contexts. -/
def drainLoop (f : Context → List Context) :
    Nat → Nat → ElectronBindings → ElectronBindings × List Context
  | 0, _, b => (b, [])
  | fuel + 1, i, b =>
    match b.pending_next_ticks[i]? with
    | none => (b, [])
    | some env =>
      let b1 := registerAll (f env) b
      let r := drainLoop f fuel (i + 1) b1
      (r.1, env :: r.2)

/-- `ElectronBindings::OnCallNextTick` with reentrant callbacks described
by `f`: run the iteration from the first element, then
`pending_next_ticks_.clear()`. -/
def OnCallNextTickWith (f : Context → List Context) (fuel : Nat)
    (b : ElectronBindings) : ElectronBindings × List Context :=
  let r := drainLoop f fuel 0 b
  ({ r.1 with pending_next_ticks := [] }, r.2)

/-- `ElectronBindings::OnCallNextTick` when no visited callback reenters
the dispatcher: the list is then never modified during the loop, so
`pending_next_ticks_.length` iterations reach `end()`. -/
def OnCallNextTick (b : ElectronBindings) : ElectronBindings × List Context :=
  OnCallNextTickWith (fun _ => []) b.pending_next_ticks.length b

/-- A JavaScript value passed through `gin::Arguments`, restricted to the
conversions the modelled bindings perform: strings (which the file-path
converter accepts) and booleans. -/
inductive V8Value where
  | str (s : String)
  | boolean (b : Bool)
  deriving Repr, DecidableEq

/-- `gin::Arguments::GetNext(&FilePath)`: if the next argument exists and
converts to a file path (a string), consume it and return it; otherwise
return `none` and leave the argument list in place (the out-parameter is
left unchanged by the caller). -/
def getNextFilePath : List V8Value → Option String × List V8Value
  | V8Value.str s :: rest => (some s, rest)
  | args => (none, args)

/-- `gin::Arguments::GetNext(&bool)`: if the next argument exists and is a
boolean, consume and return it; otherwise return `none` and leave the
argument list in place. -/
def getNextBool : List V8Value → Option Bool × List V8Value
  | V8Value.boolean b :: rest => (some b, rest)
  | args => (none, args)

/-- `MoveItemToTrash` (atom_api_shell.cc, lines 74-82): default-construct
`full_path`, `GetNext` it from the arguments; initialize
`delete_on_fail = false`, `GetNext` it (a failed `GetNext` leaves the
out-parameter untouched); return the pair handed to
`platform_util::MoveItemToTrash`. -/
def MoveItemToTrash (args : List V8Value) : String × Bool :=
  let full_path : String := ""
  let r1 := getNextFilePath args
  let full_path := r1.1.getD full_path
  let delete_on_fail : Bool := false
  let r2 := getNextBool r1.2
  let delete_on_fail := r2.1.getD delete_on_fail
  (full_path, delete_on_fail)

/-- `base::win::ShortcutOperation` values the converter can produce. -/
inductive ShortcutOperation where
  | SHORTCUT_CREATE_ALWAYS
  | SHORTCUT_UPDATE_EXISTING
  | SHORTCUT_REPLACE_EXISTING
  deriving Repr, DecidableEq

/-- `gin::Converter<base::win::ShortcutOperation>::FromV8`
(atom_api_shell.cc, lines 22-40), after the incoming value has been
converted to a `std::string`: empty or `"create"` maps to
`SHORTCUT_CREATE_ALWAYS`, `"update"` to `SHORTCUT_UPDATE_EXISTING`,
`"replace"` to `SHORTCUT_REPLACE_EXISTING`, anything else fails
(`return false`, modelled as `none`). -/
def shortcutOperationFromV8 (operation : String) : Option ShortcutOperation :=
  if operation = "" ∨ operation = "create" then
    some ShortcutOperation.SHORTCUT_CREATE_ALWAYS
  else if operation = "update" then
    some ShortcutOperation.SHORTCUT_UPDATE_EXISTING
  else if operation = "replace" then
    some ShortcutOperation.SHORTCUT_REPLACE_EXISTING
  else
    none

/-- When no callback reenters the dispatcher, the drain loop starting at
index `i` leaves the state untouched and visits exactly the suffix of the
pending list from `i` on, provided the fuel covers the remaining
iterations. -/
theorem drainLoop_const_eq (fuel : Nat) :
    ∀ (i : Nat) (b : ElectronBindings),
      b.pending_next_ticks.length ≤ i + fuel →
      drainLoop (fun _ => []) fuel i b = (b, b.pending_next_ticks.drop i) := by
  induction fuel with
  | zero =>
    intro i b h
    simp only [Nat.add_zero] at h
    simp [drainLoop, List.drop_eq_nil_of_le h]
  | succ n ih =>
    intro i b h
    unfold drainLoop
    cases hget : b.pending_next_ticks[i]? with
    | none =>
      have hle : b.pending_next_ticks.length ≤ i := by
        exact List.getElem?_eq_none_iff.mp hget
      simp [List.drop_eq_nil_of_le hle]
    | some env =>
      have hlt : i < b.pending_next_ticks.length := by
        by_contra hc
        rw [List.getElem?_eq_none (Nat.le_of_not_lt hc)] at hget
        exact Option.noConfusion hget
      have hrec := ih (i + 1) b (by omega)
      simp only [registerAll, List.foldl_nil, hrec]
      have hdrop : b.pending_next_ticks.drop i =
          env :: b.pending_next_ticks.drop (i + 1) := by
        rw [List.drop_eq_getElem_cons hlt]
        have : b.pending_next_ticks[i] = env := by
          have := List.getElem?_eq_getElem hlt
          rw [hget] at this
          exact (Option.some.injEq _ _).mp this.symm
        rw [this]
      rw [hdrop]

/-- Without reentry, `OnCallNextTick` visits exactly the pending list in
order and clears it, leaving the signal count unchanged. -/
theorem onCallNextTick_eq (b : ElectronBindings) :
    OnCallNextTick b =
      ({ b with pending_next_ticks := [] }, b.pending_next_ticks) := by
  unfold OnCallNextTick OnCallNextTickWith
  rw [drainLoop_const_eq _ 0 b (by omega)]
  simp

/-- C1: after `OnCallNextTick` returns, the pending collection is empty,
the contexts pending at entry were visited in the order they became
pending during the cycle (the visited list is exactly the pending list),
and — the pending list being duplicate-free — each such context received
exactly one scope-enter-and-callback invocation. -/
theorem onCallNextTick_drains_in_order (b : ElectronBindings) :
    (OnCallNextTick b).1.pending_next_ticks = [] ∧
    (OnCallNextTick b).2 = b.pending_next_ticks ∧
    (b.pending_next_ticks.Nodup →
      ∀ c ∈ b.pending_next_ticks, (OnCallNextTick b).2.count c = 1) := by
  rw [onCallNextTick_eq]
  exact ⟨rfl, rfl, fun hnd c hc => List.count_eq_one_of_mem hnd hc⟩

theorem onCallNextTick_drains_in_order_witness :
    (OnCallNextTick ⟨[2, 3], 5⟩).2.count 3 = 1 :=
  (onCallNextTick_drains_in_order ⟨[2, 3], 5⟩).2.2 (by decide) 3 (by decide)

/-- C2: the first `ActivateUVLoop` call for a context not yet pending
appends it and signals the wake primitive once; every further call while
it is still pending is a strict no-op (no state change, no signal), so
after any positive number of calls the context is pending exactly once
and exactly one signal was issued. -/
theorem activateUVLoop_register_once (b : ElectronBindings) (c : Context)
    (n : Nat) (h : c ∉ b.pending_next_ticks) (hn : 1 ≤ n) :
    ((ActivateUVLoop c)^[n] b).pending_next_ticks =
      b.pending_next_ticks ++ [c] ∧
    ((ActivateUVLoop c)^[n] b).pending_next_ticks.count c = 1 ∧
    ((ActivateUVLoop c)^[n] b).async_send_count = b.async_send_count + 1 ∧
    (∀ b2 : ElectronBindings, c ∈ b2.pending_next_ticks →
      ActivateUVLoop c b2 = b2) := by
  obtain ⟨k, rfl⟩ : ∃ k, n = k + 1 := ⟨n - 1, by omega⟩
  have hfix : ∀ b2 : ElectronBindings, c ∈ b2.pending_next_ticks →
      ActivateUVLoop c b2 = b2 := fun b2 h2 => by simp [ActivateUVLoop, h2]
  have hstep : ActivateUVLoop c b =
      ⟨b.pending_next_ticks ++ [c], b.async_send_count + 1⟩ := by
    simp [ActivateUVLoop, h]
  have hiter : (ActivateUVLoop c)^[k + 1] b =
      ⟨b.pending_next_ticks ++ [c], b.async_send_count + 1⟩ := by
    rw [Function.iterate_succ_apply, hstep]
    exact Function.iterate_fixed (hfix _ (by simp)) k
  rw [hiter]
  refine ⟨rfl, ?_, rfl, hfix⟩
  simp [List.count_append, List.count_eq_zero_of_not_mem h]

theorem activateUVLoop_register_once_witness :
    ((ActivateUVLoop 7)^[3] (⟨[], 0⟩ : ElectronBindings)).pending_next_ticks =
      [] ++ [7] ∧
    ((ActivateUVLoop 7)^[3] (⟨[], 0⟩ : ElectronBindings)).async_send_count =
      0 + 1 :=
  ⟨(activateUVLoop_register_once ⟨[], 0⟩ 7 3 (by decide) (by decide)).1,
   (activateUVLoop_register_once ⟨[], 0⟩ 7 3 (by decide) (by decide)).2.2.1⟩

/-- C3 counterexample: with context 0 pending and its callback reentrantly
registering the fresh context 1 during the drain, the claim "1 is not
processed within the currently executing drain and is processed in a
subsequent cycle" is false: the `std::list` iterator reaches the entry
appended during the loop, so 1 is visited in the same drain, and the
subsequent wake (triggered by the signal the registration sent) finds the
cleared list and visits nothing. -/
theorem reentrant_registration_counterexample :
    ¬ (1 ∉ (OnCallNextTickWith (fun e => if e = 0 then [1] else [])
              3 ⟨[0], 1⟩).2 ∧
       1 ∈ (OnCallNextTick
              (OnCallNextTickWith (fun e => if e = 0 then [1] else [])
                3 ⟨[0], 1⟩).1).2) := by
  decide

/-- C3 amended: a context `c` registered during the drain while not in the
pending collection is appended and visited within the currently executing
drain, after the contexts pending at entry; the end-of-drain clear then
empties the collection, so the subsequent wake caused by the
registration's signal visits nothing. -/
theorem reentrant_registration_same_drain (a c : Context) (hac : a ≠ c) :
    OnCallNextTickWith (fun e => if e = a then [c] else []) 3 ⟨[a], 1⟩ =
      (⟨[], 2⟩, [a, c]) ∧
    (OnCallNextTick (⟨[], 2⟩ : ElectronBindings)).2 = [] := by
  have hca : ¬ (c = a) := fun hcae => hac hcae.symm
  constructor
  · simp [OnCallNextTickWith, drainLoop, registerAll, ActivateUVLoop, hca]
  · rw [onCallNextTick_eq]

theorem reentrant_registration_same_drain_witness :
    OnCallNextTickWith (fun e => if e = 0 then [1] else []) 3 ⟨[0], 1⟩ =
      (⟨[], 2⟩, [0, 1]) :=
  (reentrant_registration_same_drain 0 1 (by decide)).1

/-- C4: starting from a duplicate-free pending collection, each operation
(`ActivateUVLoop`, `EnvironmentDestroyed`, a drain — reentrant callbacks
included) leaves it duplicate-free, so every context appears in it at most
once at any time. -/
theorem pending_at_most_once_preserved (b : ElectronBindings) (c : Context)
    (f : Context → List Context) (fuel : Nat)
    (h : b.pending_next_ticks.Nodup) :
    (ActivateUVLoop c b).pending_next_ticks.Nodup ∧
    (∀ x, (ActivateUVLoop c b).pending_next_ticks.count x ≤ 1) ∧
    (EnvironmentDestroyed c b).pending_next_ticks.Nodup ∧
    (OnCallNextTickWith f fuel b).1.pending_next_ticks.Nodup := by
  have h1 : (ActivateUVLoop c b).pending_next_ticks.Nodup := by
    by_cases hc : c ∈ b.pending_next_ticks
    · simpa [ActivateUVLoop, hc] using h
    · simp [ActivateUVLoop, hc, List.nodup_append, h]
  refine ⟨h1, fun x => List.nodup_iff_count_le_one.mp h1 x, ?_, ?_⟩
  · exact h.erase c
  · simp [OnCallNextTickWith]

theorem pending_at_most_once_preserved_witness :
    (ActivateUVLoop 1 (⟨[0], 1⟩ : ElectronBindings)).pending_next_ticks.Nodup :=
  (pending_at_most_once_preserved ⟨[0], 1⟩ 1 (fun _ => []) 1 (by decide)).1

/-- C5: `EnvironmentDestroyed` on a pending context removes it (the list
shrinks by one and no longer contains it), and the next
`OnCallNextTick` does not visit it. -/
theorem environmentDestroyed_removes_pending (b : ElectronBindings)
    (c : Context) (hnd : b.pending_next_ticks.Nodup)
    (hc : c ∈ b.pending_next_ticks) :
    c ∉ (EnvironmentDestroyed c b).pending_next_ticks ∧
    (EnvironmentDestroyed c b).pending_next_ticks.length + 1 =
      b.pending_next_ticks.length ∧
    c ∉ (OnCallNextTick (EnvironmentDestroyed c b)).2 := by
  have h1 : c ∉ b.pending_next_ticks.erase c := hnd.not_mem_erase
  have hpos : 0 < b.pending_next_ticks.length := List.length_pos_of_mem hc
  have hlen := List.length_erase_of_mem hc
  refine ⟨h1, by simp [EnvironmentDestroyed, hlen]; omega, ?_⟩
  rw [onCallNextTick_eq]
  exact h1

theorem environmentDestroyed_removes_pending_witness :
    4 ∉ (EnvironmentDestroyed 4 (⟨[4, 5], 2⟩ : ElectronBindings)).pending_next_ticks :=
  (environmentDestroyed_removes_pending ⟨[4, 5], 2⟩ 4 (by decide) (by decide)).1

/-- C6: `EnvironmentDestroyed` on a context that is not pending changes
nothing at all — the state, hence every other pending entry and their
relative order, is exactly as before. -/
theorem environmentDestroyed_noop (b : ElectronBindings) (c : Context)
    (h : c ∉ b.pending_next_ticks) : EnvironmentDestroyed c b = b := by
  cases b with
  | mk p a =>
    simp only [EnvironmentDestroyed]
    rw [List.erase_of_not_mem h]

theorem environmentDestroyed_noop_witness :
    EnvironmentDestroyed 9 (⟨[1, 2], 0⟩ : ElectronBindings) = ⟨[1, 2], 0⟩ :=
  environmentDestroyed_noop ⟨[1, 2], 0⟩ 9 (by decide)

/-- C7: for distinct contexts `a` and `c`, registering `a`, then `c`, then
`a` again yields pending `[a, c]`; the drain visits `a` then `c` and
clears the collection; registering `a` afterwards starts a fresh cycle
with pending `[a]`. -/
theorem register_drain_reregister_scenario (a c : Context) (h : a ≠ c) :
    (ActivateUVLoop a (ActivateUVLoop c (ActivateUVLoop a
      ⟨[], 0⟩))).pending_next_ticks = [a, c] ∧
    (OnCallNextTick (ActivateUVLoop a (ActivateUVLoop c (ActivateUVLoop a
      ⟨[], 0⟩)))).2 = [a, c] ∧
    (OnCallNextTick (ActivateUVLoop a (ActivateUVLoop c (ActivateUVLoop a
      ⟨[], 0⟩)))).1.pending_next_ticks = [] ∧
    (ActivateUVLoop a (OnCallNextTick (ActivateUVLoop a (ActivateUVLoop c
      (ActivateUVLoop a ⟨[], 0⟩)))).1).pending_next_ticks = [a] := by
  have hca : ¬ (c = a) := fun hcae => h hcae.symm
  have h3 : ActivateUVLoop a (ActivateUVLoop c (ActivateUVLoop a ⟨[], 0⟩)) =
      ⟨[a, c], 2⟩ := by
    simp [ActivateUVLoop, hca]
  rw [h3, onCallNextTick_eq]
  refine ⟨rfl, rfl, rfl, ?_⟩
  simp [ActivateUVLoop]

theorem register_drain_reregister_scenario_witness :
    (ActivateUVLoop 0 (ActivateUVLoop 1 (ActivateUVLoop 0
      (⟨[], 0⟩ : ElectronBindings)))).pending_next_ticks = [0, 1] :=
  (register_drain_reregister_scenario 0 1 (by decide)).1

/-- C8: a wake that fires with an empty pending collection is a plain
no-op — the state is returned unchanged and no context is visited. -/
theorem onCallNextTick_empty_noop (b : ElectronBindings)
    (h : b.pending_next_ticks = []) : OnCallNextTick b = (b, []) := by
  cases b with
  | mk p a =>
    obtain rfl : p = [] := h
    rw [onCallNextTick_eq]

theorem onCallNextTick_empty_noop_witness :
    OnCallNextTick (⟨[], 7⟩ : ElectronBindings) = (⟨[], 7⟩, []) :=
  onCallNextTick_empty_noop ⟨[], 7⟩ rfl

/-- C9: calling `MoveItemToTrash` with a file path and no second argument
passes `delete_on_fail = false` to the underlying platform trash
operation: the failed `GetNext` leaves the out-parameter at its `false`
initialization. -/
theorem moveItemToTrash_default_delete_on_fail (p : String) :
    MoveItemToTrash [V8Value.str p] = (p, false) := rfl

/-- C10: the `ShortcutOperation` converter maps the empty string and
`"create"` to create-always, `"update"` to update-existing, `"replace"`
to replace-existing, and succeeds on exactly those four strings, failing
on every other string. -/
theorem shortcutOperation_conversion (s : String) :
    shortcutOperationFromV8 "" =
      some ShortcutOperation.SHORTCUT_CREATE_ALWAYS ∧
    shortcutOperationFromV8 "create" =
      some ShortcutOperation.SHORTCUT_CREATE_ALWAYS ∧
    shortcutOperationFromV8 "update" =
      some ShortcutOperation.SHORTCUT_UPDATE_EXISTING ∧
    shortcutOperationFromV8 "replace" =
      some ShortcutOperation.SHORTCUT_REPLACE_EXISTING ∧
    ((shortcutOperationFromV8 s).isSome ↔
      s = "" ∨ s = "create" ∨ s = "update" ∨ s = "replace") := by
  refine ⟨by decide, by decide, by decide, by decide, ?_⟩
  constructor
  · intro hs
    by_contra hall
    push_neg at hall
    obtain ⟨n1, n2, n3, n4⟩ := hall
    simp [shortcutOperationFromV8, n1, n2, n3, n4] at hs
  · intro hs
    rcases hs with rfl | rfl | rfl | rfl <;> decide

end Electron
